import Mathlib

/-!
Verification development for the sitemap-scan repository: shallow
embeddings of the batch crawl orchestrator (`src/backup/fetcher.ts`),
the sitemap recursion, the change detector, the content normalizer
(`src/diff/normalizer.ts`) and the diff truncation
(`src/diff/generator.ts`), together with theorems settling the
specification claims.

Modelling conventions:
* machine integers are `Nat` (all counters in the source are small
  non-negative JS numbers);
* SHA-256 digests (`calculateHash`) are modelled by the identity
  encoding: the source only compares digests for equality, and the
  model keeps that comparison collision-free;
* the key-value store is a record of the keys the modelled paths read
  and write; network responses are supplied by an environment record;
* fallible JS code (`try`/`catch`, `JSON.parse`) is modelled with
  `Option` / explicit sum types.
-/

/-- A single classified change as produced by `ContentComparer.classifyChanges`
(`src/diff/comparer.ts`).  Only the fields read by `limitChanges` and the
summary recomputation are modelled: the numeric `priority` used by the sort
comparator, plus the element name and change kind carried along unchanged. -/
structure DiffChange where
  priority : Nat
  element : String
  changeKind : String
  deriving Repr, DecidableEq

/-- The three per-category change lists of a `DetailedDiff`
(`src/types/diff.ts`, `ChangeClassification`). -/
structure ChangeClassification where
  content : List DiffChange
  style : List DiffChange
  structural : List DiffChange
  deriving Repr, DecidableEq

/-- The count summary of a `DetailedDiff` (`src/types/diff.ts`). -/
structure DiffSummary where
  totalChanges : Nat
  contentChanges : Nat
  styleChanges : Nat
  structureChanges : Nat
  highestPriority : Nat
  deriving Repr, DecidableEq

/-- A `DetailedDiff` (`src/types/diff.ts`), restricted to the fields
`limitChanges` reads or writes (url/date/hash strings are carried
unchanged and omitted, as is the generation metadata). -/
structure DetailedDiff where
  classification : ChangeClassification
  summary : DiffSummary
  deriving Repr, DecidableEq

/-- Insert into a list that is sorted by descending priority, keeping it
sorted.  Together with `sortByPriorityDesc` this models the effect of
JavaScript `array.sort((a, b) => b.priority - a.priority)` in
`DiffGenerator.limitChanges` (`src/diff/generator.ts` line 241): the
resulting order is non-increasing in `priority`. -/
def insertDesc (x : DiffChange) : List DiffChange → List DiffChange
  | [] => [x]
  | y :: ys => if y.priority < x.priority then x :: y :: ys else y :: insertDesc x ys

/-- Sort a change list by priority, highest first (the order produced by the
comparator `(a, b) => b.priority - a.priority`). -/
def sortByPriorityDesc : List DiffChange → List DiffChange
  | [] => []
  | x :: xs => insertDesc x (sortByPriorityDesc xs)

/-- `Math.floor(maxChanges * 0.6)` on the natural inputs the source uses:
for every `n : Nat` below 2^52 the double computation agrees with
`n * 6 / 10` in integer arithmetic. -/
def floor60 (n : Nat) : Nat := n * 6 / 10

/-- `Math.floor(maxChanges * 0.2)`, likewise `n * 2 / 10`. -/
def floor20 (n : Nat) : Nat := n * 2 / 10

/-- `DiffGenerator.limitChanges` (`src/diff/generator.ts` lines 238-263):
sort each category by priority descending, keep a 60% / 20% / 20% prefix,
and recompute the summary counts from the retained lists. -/
def limitChanges (diff : DetailedDiff) (maxChanges : Nat) : DetailedDiff :=
  let content := (sortByPriorityDesc diff.classification.content).take (floor60 maxChanges)
  let style := (sortByPriorityDesc diff.classification.style).take (floor20 maxChanges)
  let structural := (sortByPriorityDesc diff.classification.structural).take (floor20 maxChanges)
  { classification := { content := content, style := style, structural := structural }
    summary :=
      { totalChanges := content.length + style.length + structural.length
        contentChanges := content.length
        styleChanges := style.length
        structureChanges := structural.length
        highestPriority := diff.summary.highestPriority } }

theorem insertDesc_mem (x : DiffChange) (l : List DiffChange) (z : DiffChange) :
    z ∈ insertDesc x l ↔ z = x ∨ z ∈ l := by
  induction l with
  | nil => simp [insertDesc]
  | cons y ys ih =>
    by_cases h : y.priority < x.priority
    · simp [insertDesc, h]
    · simp [insertDesc, h, ih]
      tauto

theorem insertDesc_sorted (x : DiffChange) (l : List DiffChange)
    (hl : l.Pairwise (fun a b => b.priority ≤ a.priority)) :
    (insertDesc x l).Pairwise (fun a b => b.priority ≤ a.priority) := by
  induction l with
  | nil => simp [insertDesc]
  | cons y ys ih =>
    rcases List.pairwise_cons.mp hl with ⟨hy, hys⟩
    by_cases h : y.priority < x.priority
    · simp only [insertDesc, if_pos h]
      refine List.pairwise_cons.mpr ⟨?_, hl⟩
      intro z hz
      rcases List.mem_cons.mp hz with hz | hz
      · subst hz; omega
      · have := hy z hz
        omega
    · simp only [insertDesc, if_neg h]
      refine List.pairwise_cons.mpr ⟨?_, ih hys⟩
      intro z hz
      rcases (insertDesc_mem x ys z).mp hz with hz | hz
      · subst hz; omega
      · exact hy z hz

theorem sortByPriorityDesc_mem (l : List DiffChange) (z : DiffChange) :
    z ∈ sortByPriorityDesc l ↔ z ∈ l := by
  induction l with
  | nil => simp [sortByPriorityDesc]
  | cons y ys ih => simp [sortByPriorityDesc, insertDesc_mem, ih]

theorem sortByPriorityDesc_sorted (l : List DiffChange) :
    (sortByPriorityDesc l).Pairwise (fun a b => b.priority ≤ a.priority) := by
  induction l with
  | nil => simp [sortByPriorityDesc]
  | cons y ys ih => exact insertDesc_sorted y _ ih

/-- In a descending-sorted list, every element of the kept prefix has
priority at least that of every element outside the prefix. -/
theorem take_drop_priority (l : List DiffChange) (k : Nat)
    (hl : l.Pairwise (fun a b => b.priority ≤ a.priority))
    (x : DiffChange) (hx : x ∈ l.take k) (y : DiffChange) (hy : y ∈ l.drop k) :
    y.priority ≤ x.priority := by
  have hl' := hl
  rw [← List.take_append_drop k l] at hl'
  exact (List.pairwise_append.mp hl').2.2 x hx y hy

/-- A change of a category that is strictly higher priority than some
retained change of that category is itself retained. -/
theorem retained_of_higher (orig : List DiffChange) (k : Nat)
    (x y : DiffChange) (hx : x ∈ (sortByPriorityDesc orig).take k)
    (hy : y ∈ orig) (hgt : x.priority < y.priority) :
    y ∈ (sortByPriorityDesc orig).take k := by
  have hys : y ∈ sortByPriorityDesc orig := (sortByPriorityDesc_mem orig y).mpr hy
  rw [← List.take_append_drop k (sortByPriorityDesc orig)] at hys
  rcases List.mem_append.mp hys with h | h
  · exact h
  · have := take_drop_priority (sortByPriorityDesc orig) k
      (sortByPriorityDesc_sorted orig) x hx y h
    omega

/-- C8: for every `DetailedDiff` and limit `max`, `limitChanges` sorts each
category by priority descending and truncates it (content to 60% of `max`,
style and structure to 20% each), so within any single category no change
with strictly higher priority is dropped while a lower-priority change of
the same category is retained: whenever a change `x` of a category is
retained and `y` of the same category has strictly higher priority, `y` is
retained too. -/
theorem limitChanges_no_priority_inversion (diff : DetailedDiff) (m : Nat)
    (x y : DiffChange) :
    (x ∈ (limitChanges diff m).classification.content →
      y ∈ diff.classification.content → x.priority < y.priority →
      y ∈ (limitChanges diff m).classification.content) ∧
    (x ∈ (limitChanges diff m).classification.style →
      y ∈ diff.classification.style → x.priority < y.priority →
      y ∈ (limitChanges diff m).classification.style) ∧
    (x ∈ (limitChanges diff m).classification.structural →
      y ∈ diff.classification.structural → x.priority < y.priority →
      y ∈ (limitChanges diff m).classification.structural) := by
  refine ⟨?_, ?_, ?_⟩ <;>
    · intro hx hy hgt
      exact retained_of_higher _ _ x y hx hy hgt

/-- Witness for `limitChanges_no_priority_inversion` at a concrete diff:
with limit 4 the content category keeps its top two changes, and the
priority-5 title change is retained whenever the priority-3 body change
is. -/
theorem limitChanges_no_priority_inversion_witness :
    (⟨5, "title", "modified"⟩ : DiffChange) ∈
      (limitChanges
        { classification :=
            { content := [⟨5, "title", "modified"⟩, ⟨3, "body", "modified"⟩,
                ⟨1, "p", "added"⟩]
              style := [⟨2, "style", "added"⟩]
              structural := [⟨2, "nav", "removed"⟩] }
          summary := ⟨5, 3, 1, 1, 5⟩ } 4).classification.content :=
  (limitChanges_no_priority_inversion
      { classification :=
          { content := [⟨5, "title", "modified"⟩, ⟨3, "body", "modified"⟩,
              ⟨1, "p", "added"⟩]
            style := [⟨2, "style", "added"⟩]
            structural := [⟨2, "nav", "removed"⟩] }
        summary := ⟨5, 3, 1, 1, 5⟩ } 4
      ⟨3, "body", "modified"⟩ ⟨5, "title", "modified"⟩).1
    (by decide) (by decide) (by decide)

/-! ## Content normalizer (`src/diff/normalizer.ts`)

The normalizer pipeline is modelled over `List Char`.  Each of the twelve
built-in `DEFAULT_PATTERNS` regexes is embedded as a matcher that, at a
given position (with the preceding character supplied for `\b` tests),
either fails or reports how many characters the JavaScript regex engine
would consume there together with the replacement text.  A generic driver
reproduces `String.prototype.replace` with a global regex: scan left to
right, replace each match, resume immediately after the consumed original
characters. -/

/-- JavaScript `\s` on the ASCII range (the inputs of interest). -/
def isWs (c : Char) : Bool :=
  c = ' ' || c = '\t' || c = '\n' || c = '\r' || c = Char.ofNat 11 || c = Char.ofNat 12

/-- JavaScript `\d`. -/
def isDigitC (c : Char) : Bool := '0' ≤ c && c ≤ '9'

/-- JavaScript `\w` (ASCII word character). -/
def isWordChar (c : Char) : Bool :=
  ('0' ≤ c && c ≤ '9') || ('a' ≤ c && c ≤ 'z') || ('A' ≤ c && c ≤ 'Z') || c = '_'

/-- Case-insensitive hexadecimal digit (`[0-9a-f]` with the `i` flag). -/
def isHexDigit (c : Char) : Bool :=
  ('0' ≤ c && c ≤ '9') || ('a' ≤ c && c ≤ 'f') || ('A' ≤ c && c ≤ 'F')

/-- ASCII letter or digit (`[a-zA-Z0-9]`). -/
def isAlnum (c : Char) : Bool :=
  ('0' ≤ c && c ≤ '9') || ('a' ≤ c && c ≤ 'z') || ('A' ≤ c && c ≤ 'Z')

/-- The apostrophe character (kept out of literals). -/
def aposChar : Char := Char.ofNat 39

/-- `\b` holds before a word character iff the previous character (none at
the string start) is not a word character. -/
def noWordBefore : Option Char → Bool
  | none => true
  | some c => !isWordChar c

/-- `\b` holds after a word character iff the next character (none at the
string end) is not a word character. -/
def noWordAt : List Char → Bool
  | [] => true
  | c :: _ => !isWordChar c

/-- Consume exactly `n` characters satisfying `p`. -/
def pCount (p : Char → Bool) : Nat → List Char → Option (List Char)
  | 0, l => some l
  | n + 1, c :: cs => if p c then pCount p n cs else none
  | _ + 1, [] => none

/-- Consume one character satisfying `p`. -/
def pChar (p : Char → Bool) : List Char → Option (List Char)
  | c :: cs => if p c then some cs else none
  | [] => none

/-- Greedily consume characters satisfying `p`, requiring at least `n`
(the regex `p{n,}`; for the patterns below the following regex atom never
matches `p`, so the greedy match never backtracks). -/
def pMin (p : Char → Bool) (n : Nat) (l : List Char) : Option (List Char) :=
  let k := (l.takeWhile p).length
  if n ≤ k then some (l.drop k) else none

/-- Optionally consume one character satisfying `p` (the regex `p?`; used
only where backtracking over the option cannot change the outcome). -/
def pOpt (p : Char → Bool) : List Char → List Char
  | c :: cs => if p c then cs else c :: cs
  | [] => []

/-- Consume a case-sensitive literal. -/
def pLit : List Char → List Char → Option (List Char)
  | [], l => some l
  | p :: ps, c :: cs => if c = p then pLit ps cs else none
  | _ :: _, [] => none

/-- Consume a case-insensitive literal (the regex `i` flag). -/
def pLitCI : List Char → List Char → Option (List Char)
  | [], l => some l
  | p :: ps, c :: cs => if c.toLower = p.toLower then pLitCI ps cs else none
  | _ :: _, [] => none

/-- Package a successful match: `rest` is what is left of the scanned list
`l`, so `l.length - rest.length` characters were consumed (always ≥ 1 for
the patterns below); the driver receives `consumed - 1` plus replacement. -/
def mkMatch (l rest : List Char) (repl : String) : Option (Nat × List Char) :=
  some (l.length - rest.length - 1, repl.data)

/-- A matcher: given the previous original character and the rest of the
input, report the match at this exact position, if any. -/
abbrev Matcher := Option Char → List Char → Option (Nat × List Char)

/-- `String.prototype.replace` with a global regex, structurally fuelled by
the input length (every match consumes at least one character, so the fuel
never runs out on the inputs reached from `replaceAll`). -/
def replaceAllAux (step : Matcher) : Nat → Option Char → List Char → List Char
  | 0, _, l => l
  | _ + 1, _, [] => []
  | fuel + 1, prev, c :: cs =>
    match step prev (c :: cs) with
    | some (extra, repl) =>
        repl ++ replaceAllAux step fuel ((c :: cs)[extra]?) ((c :: cs).drop (extra + 1))
    | none => c :: replaceAllAux step fuel (some c) cs

/-- Apply one pattern replacement over a whole string. -/
def replaceAll (step : Matcher) (s : String) : String :=
  ⟨replaceAllAux step s.data.length none s.data⟩

/-- `timestamps`: `/\b\d{4}-\d{2}-\d{2}\b/g` → `[DATE]`. -/
def patTimestamps : Matcher := fun prev l =>
  if noWordBefore prev then
    match (pCount isDigitC 4 l).bind (pChar (· = '-')) |>.bind (pCount isDigitC 2)
        |>.bind (pChar (· = '-')) |>.bind (pCount isDigitC 2) with
    | some rest => if noWordAt rest then mkMatch l rest "[DATE]" else none
    | none => none
  else none

/-- `times`: `/\b\d{2}:\d{2}:\d{2}\b/g` → `[TIME]`. -/
def patTimes : Matcher := fun prev l =>
  if noWordBefore prev then
    match (pCount isDigitC 2 l).bind (pChar (· = ':')) |>.bind (pCount isDigitC 2)
        |>.bind (pChar (· = ':')) |>.bind (pCount isDigitC 2) with
    | some rest => if noWordAt rest then mkMatch l rest "[TIME]" else none
    | none => none
  else none

/-- `unix_timestamps`: `/\b\d{10,13}\b/g` → `[TIMESTAMP]`.  The digit run
must end at a word boundary, so a run longer than 13 digits never matches
(backtracking to fewer digits still faces a digit next). -/
def patUnixTimestamps : Matcher := fun prev l =>
  if noWordBefore prev then
    let k := (l.takeWhile isDigitC).length
    if 10 ≤ k && k ≤ 13 && noWordAt (l.drop k) then
      some (k - 1, "[TIMESTAMP]".data)
    else none
  else none

/-- The class `["\s]` of the token patterns. -/
def isQuoteOrWs (c : Char) : Bool := c = '"' || isWs c

/-- The class `["']` of the token patterns. -/
def isQuote (c : Char) : Bool := c = '"' || c = aposChar

/-- The class `[^"'\s]` of the token patterns. -/
def isTokenChar (c : Char) : Bool := !(c = '"' || c = aposChar || isWs c)

/-- Common shape of the `csrf` / `_requestid` / `session` / `build` token
patterns: (case-insensitive) keyword, `["\s]*`, `[:=]`, `["\s]*`, `["']?`,
then the value atom, then `["']?`. -/
def patToken (keyword : String) (value : List Char → Option (List Char))
    (repl : String) : Matcher := fun _ l =>
  match pLitCI keyword.data l with
  | none => none
  | some r1 =>
    let r2 := r1.dropWhile isQuoteOrWs
    match pChar (fun c => c = ':' || c = '=') r2 with
    | none => none
    | some r3 =>
      let r4 := r3.dropWhile isQuoteOrWs
      let r5 := pOpt isQuote r4
      match value r5 with
      | none => none
      | some r6 => mkMatch l (pOpt isQuote r6) repl

/-- `csrf_tokens`: `/csrf["\s]*[:=]["\s]*["']?[^"'\s]{8,}["']?/gi`. -/
def patCsrfTokens : Matcher :=
  patToken "csrf" (pMin isTokenChar 8) "csrf:\"[CSRF_TOKEN]\""

/-- `request_ids`: `/_requestid["\s]*[:=]["\s]*["']?[^"'\s]{8,}["']?/gi`. -/
def patRequestIds : Matcher :=
  patToken "_requestid" (pMin isTokenChar 8) "_requestid:\"[REQUEST_ID]\""

/-- An attribute-shaped pattern `name="[^"]*"` (used by `nonce`,
`data_testids` and `data_cy`; `ci` selects the `i` flag). -/
def patAttr (name : String) (ci : Bool) (repl : String) : Matcher := fun _ l =>
  match (if ci then pLitCI name.data l else pLit name.data l) with
  | none => none
  | some r1 =>
    match pChar (· = '"') (r1.dropWhile (fun c => !(c = '"'))) with
    | none => none
    | some rest => mkMatch l rest repl

/-- `nonce`: `/nonce="[^"]*"/gi` → `nonce="[NONCE]"`. -/
def patNonce : Matcher := patAttr "nonce=\"" true "nonce=\"[NONCE]\""

/-- `data_testids`: `/data-testid="[^"]*"/g` → removed. -/
def patDataTestids : Matcher := patAttr "data-testid=\"" false ""

/-- `data_cy`: `/data-cy="[^"]*"/g` → removed. -/
def patDataCy : Matcher := patAttr "data-cy=\"" false ""

/-- `session_ids`: `/session["\s]*[:=]["\s]*["']?[^"'\s]{16,}["']?/gi`. -/
def patSessionIds : Matcher :=
  patToken "session" (pMin isTokenChar 16) "session:\"[SESSION]\""

/-- `uuids`: `/\b[0-9a-f]{8}-([0-9a-f]{4}-){3}[0-9a-f]{12}\b/gi` → `[UUID]`. -/
def patUuids : Matcher := fun prev l =>
  if noWordBefore prev then
    match (pCount isHexDigit 8 l).bind (pChar (· = '-')) |>.bind (pCount isHexDigit 4)
        |>.bind (pChar (· = '-')) |>.bind (pCount isHexDigit 4)
        |>.bind (pChar (· = '-')) |>.bind (pCount isHexDigit 4)
        |>.bind (pChar (· = '-')) |>.bind (pCount isHexDigit 12) with
    | some rest => if noWordAt rest then mkMatch l rest "[UUID]" else none
    | none => none
  else none

/-- `version_numbers`: `/\bv?\d+\.\d+\.\d+(-[a-zA-Z0-9]+)?\b/g` → `[VERSION]`.
The optional suffix group is tried greedily; if it cannot complete at a word
boundary the engine falls back to ending after the third number, where the
following `-` (a non-word character) satisfies `\b`. -/
def patVersionNumbers : Matcher := fun prev l =>
  if noWordBefore prev then
    let start := match l with
      | c :: cs => if c = 'v' then cs else c :: cs
      | [] => []
    match (pMin isDigitC 1 start).bind (pChar (· = '.')) |>.bind (pMin isDigitC 1)
        |>.bind (pChar (· = '.')) |>.bind (pMin isDigitC 1) with
    | some r5 =>
      match r5 with
      | c :: r6 =>
        if c = '-' then
          let k := (r6.takeWhile isAlnum).length
          if 1 ≤ k && noWordAt (r6.drop k) then mkMatch l (r6.drop k) "[VERSION]"
          else if noWordAt r5 then mkMatch l r5 "[VERSION]" else none
        else if noWordAt r5 then mkMatch l r5 "[VERSION]" else none
      | [] => mkMatch l [] "[VERSION]"
    | none => none
  else none

/-- `build_numbers`: `/build["\s]*[:=]["\s]*["']?\d+["']?/gi`. -/
def patBuildNumbers : Matcher :=
  patToken "build" (pMin isDigitC 1) "build:\"[BUILD]\""

/-- `ContentNormalizer.applyDynamicPatterns` (`src/diff/normalizer.ts`
lines 161-173): the twelve built-in patterns applied in declaration
order, each as a full global replace over the current string. -/
def applyDynamicPatterns (s : String) : String :=
  [patTimestamps, patTimes, patUnixTimestamps, patCsrfTokens, patRequestIds,
    patNonce, patDataTestids, patDataCy, patSessionIds, patUuids,
    patVersionNumbers, patBuildNumbers].foldl (fun acc p => replaceAll p acc) s

/-- The character class `[{}[\](),;:]` of `cleanupWhitespace`. -/
def isPunct (c : Char) : Bool :=
  c = '{' || c = '}' || c = '[' || c = ']' || c = '(' || c = ')' ||
  c = ',' || c = ';' || c = ':'

/-- `/\s+/g → " "`. -/
def patWsRun : Matcher := fun _ l =>
  match l with
  | c :: _ =>
    if isWs c then
      let k := (l.takeWhile isWs).length
      some (k - 1, [' '])
    else none
  | [] => none

/-- `/> </g → "><"`. -/
def patGtLt : Matcher := fun _ l =>
  match pLit "> <".data l with
  | some rest => mkMatch l rest "><"
  | none => none

/-- `/\s*([{}[\](),;:])\s*/g → "$1"`. -/
def patPunctWs : Matcher := fun _ l =>
  let w := (l.takeWhile isWs).length
  match (l.drop w) with
  | c :: rest =>
    if isPunct c then
      let t := (rest.takeWhile isWs).length
      some (w + t, [c])
    else none
  | [] => none

/-- `String.prototype.trim`. -/
def trimStr (s : String) : String :=
  ⟨(((s.data.dropWhile isWs).reverse.dropWhile isWs).reverse)⟩

/-- `ContentNormalizer.cleanupWhitespace` (`src/diff/normalizer.ts`
lines 251-257): collapse whitespace runs, tighten `> <`, tighten
whitespace around punctuation, then trim. -/
def cleanupWhitespace (s : String) : String :=
  trimStr (replaceAll patPunctWs (replaceAll patGtLt (replaceAll patWsRun s)))

/-- `NormalizedContent` (`src/types/backup.ts`). -/
structure NormalizedContent where
  original : String
  normalized : String
  hash : String
  extractionDate : String
  deriving Repr, DecidableEq

/-- SHA-256 hex digest, modelled as the identity encoding (the source only
ever compares digests of equal-or-different strings for equality). -/
def calculateHash (s : String) : String := s

/-- `ContentNormalizer.normalizeHTML` (`src/diff/normalizer.ts` lines
69-116).  The external `html-minifier-terser` minifier is not repository
code and enters as the function parameter `minify` (its `catch` fallback
to the unminified input is behaviour of that library call, so the model
lets `minify` stand for the whole guarded stage); compiled custom ignore
patterns likewise enter as replacement functions, `[]` when the argument
is absent.  `clock` supplies `new Date().toISOString()`. -/
def normalizeHTML (minify : String → String) (custom : List (String → String))
    (clock : String) (html : String) : NormalizedContent :=
  let n1 := applyDynamicPatterns (minify html)
  let n2 := custom.foldl (fun acc f => f acc) n1
  let n3 := cleanupWhitespace n2
  { original := html, normalized := n3, hash := calculateHash n3, extractionDate := clock }

/-- C9 counterexample: normalization is not idempotent.  On the input
`12345data-testid="x"67890` (markup-free, so the external minifier is the
identity on it) the first pass removes the `data-testid` attribute, joining
the two digit runs into the ten-digit string `1234567890`; only the second
pass matches the `unix_timestamps` pattern and yields `[TIMESTAMP]`, so
`normalize(normalize(x)) ≠ normalize(x)`. -/
theorem normalizeHTML_not_idempotent :
    (normalizeHTML id [] "2026-01-01T00:00:00Z"
        (normalizeHTML id [] "2026-01-01T00:00:00Z"
          "12345data-testid=\"x\"67890").normalized).normalized
      ≠ (normalizeHTML id [] "2026-01-01T00:00:00Z"
          "12345data-testid=\"x\"67890").normalized := by decide

/-- C9 (amended): normalization is deterministic — the normalized string,
its hash and the echoed original depend only on the input content, the
minifier and the custom patterns, not on the invocation time that stamps
`extractionDate` — but it is not idempotent (see the counterexample). -/
theorem normalizeHTML_deterministic (minify : String → String)
    (custom : List (String → String)) (t₁ t₂ html : String) :
    (normalizeHTML minify custom t₁ html).normalized
        = (normalizeHTML minify custom t₂ html).normalized ∧
      (normalizeHTML minify custom t₁ html).hash
        = (normalizeHTML minify custom t₂ html).hash ∧
      (normalizeHTML minify custom t₁ html).hash
        = calculateHash (normalizeHTML minify custom t₁ html).normalized ∧
      (normalizeHTML minify custom t₁ html).original = html :=
  ⟨rfl, rfl, rfl, rfl⟩

/-! ## Batch crawl orchestrator (`src/backup/fetcher.ts`)

`BackupFetcher` is modelled over an explicit key-value state holding the
keys the modelled paths read or write (`batch_progress`, `full_scan`,
`sitemap_state`, `latest`, `prev_latest`; the dated `backup:`/`meta:`
content keys and their retention cleanup are write-only from the modelled
paths and are not tracked).  The network enters through an environment
record; page fetches (`fetchUrlWithRetries`) are external effects and
their per-URL outcomes are environment data.  `urlHash` is an injective
digest of the URL, so the model keys the latest-metadata store by the URL
itself.  The unbounded sitemap recursion is given a structural recursion
budget `fuel`: a `none` result means the recursion did not complete
within the budget (for every budget, on divergent inputs). -/

/-- Case-sensitive substring test. -/
def containsSub (pat : String) (s : String) : Bool :=
  go pat.data s.data
where
  go (p : List Char) : List Char → Bool
    | [] => (pLit p []).isSome
    | c :: cs => (pLit p (c :: cs)).isSome || go p cs

/-- Case-insensitive substring test. -/
def containsSubCI (pat : String) (s : String) : Bool :=
  go pat.data s.data
where
  go (p : List Char) : List Char → Bool
    | [] => (pLitCI p []).isSome
    | c :: cs => (pLitCI p (c :: cs)).isSome || go p cs

/-- An HTTP response to a sitemap fetch. -/
structure FetchResp where
  status : Nat
  etag : Option String
  lastModified : Option String
  body : String
  deriving Repr, DecidableEq

/-- JavaScript `Response.ok`. -/
def okResp (r : FetchResp) : Bool := 200 ≤ r.status && r.status ≤ 299

/-- The shapes of a parsed sitemap document that
`BackupFetcher.parseSitemap` distinguishes: a flat `urlset`, a
`sitemapindex` of child sitemaps, or anything else. -/
inductive SitemapXml where
  | urlset (locs : List String)
  | index (children : List String)
  | other
  deriving Repr, DecidableEq

/-- Collect the contents of `<loc>` elements, in order.  This models what
`fast-xml-parser` plus the `.map(item => item.loc)` extraction produce on
well-formed sitemap XML (loc contents never contain `<`, and `<loc>`
never occurs inside a loc value). -/
def extractLocs (body : String) : List String :=
  go body.data
where
  go : List Char → List String
    | [] => []
    | c :: cs =>
      match pLit "<loc>".data (c :: cs) with
      | some r => (⟨r.takeWhile (fun d => !(d = '<'))⟩ : String) :: go cs
      | none => go cs

/-- Classify a fetched sitemap body the way `BackupFetcher.parseSitemap`
does after XML parsing: a `urlset` result wins, then a `sitemapindex`,
else neither. -/
def parseXml (body : String) : SitemapXml :=
  if containsSub "<urlset" body then .urlset (extractLocs body)
  else if containsSub "<sitemapindex" body then .index (extractLocs body)
  else .other

/-- The `sitemap_state:{site}` record (`recordSitemapState`). -/
structure SitemapStateRec where
  etag : Option String
  lastModified : Option String
  contentHash : Option String
  checkedAt : String
  deriving Repr, DecidableEq

/-- The `batch_progress:{site}` record. -/
structure BatchProgressRec where
  nextOffset : Nat
  totalUrls : Nat
  lastRunTime : String
  deriving Repr, DecidableEq

/-- The `full_scan:{site}` record. -/
structure FullScanRec where
  date : String
  completedAt : String
  totalUrls : Nat
  deriving Repr, DecidableEq

/-- The fields of a stored `BackupMetadata` that `detectChanges` reads:
the raw hash and the optional normalized hash (`undefined` or the empty
string both fall back to the raw hash under JavaScript `||`). -/
structure BackupMeta where
  hash : String
  normalizedHash : Option String
  deriving Repr, DecidableEq

/-- A value stored under a `latest:` key: either metadata that
`JSON.parse` recovers, or bytes it fails on. -/
inductive StoredVal where
  | parsed (m : BackupMeta)
  | junk
  deriving Repr, DecidableEq

/-- The modelled slice of the key-value namespace, single site. -/
structure KVState where
  batchProgress : Option BatchProgressRec
  fullScan : Option FullScanRec
  sitemapState : Option SitemapStateRec
  latest : List (String × StoredVal)
  prevLatest : List (String × StoredVal)
  deriving Repr, DecidableEq

/-- The empty namespace. -/
def KVState.empty : KVState := ⟨none, none, none, [], []⟩

/-- Outcome of `fetchUrlWithRetries` for one URL (`BackupResult` in
`src/types/site.ts`): success with metadata and content, or failure with
an error string. -/
structure PageResult where
  url : String
  success : Bool
  metadata : Option BackupMeta
  content : Option String
  error : Option String
  deriving Repr, DecidableEq

/-- The environment of one invocation: the UTC date, the clock reading
used for stored timestamps, the network as seen by plain sitemap fetches
and by the conditional fetch of `hasSitemapChanged` (a function of the
validators sent), and the per-URL page fetch outcomes. -/
structure BackupEnv where
  today : String
  now : String
  web : String → FetchResp
  condWeb : Option String → Option String → String → FetchResp
  pageResult : String → PageResult

/-- `recordSitemapState` (`src/backup/fetcher.ts` lines 392-407). -/
def recordSitemapState (env : BackupEnv) (kv : KVState) (r : FetchResp) : KVState :=
  { kv with sitemapState := some ⟨r.etag, r.lastModified, some (calculateHash r.body), env.now⟩ }

/-- Joint result of the sitemap recursion: the resolved URLs (`none` when
the recursion budget ran out, i.e. the real recursion is still running),
the number of sitemap fetch calls performed, and the updated store. -/
structure ParseOut where
  res : Option (List String)
  fetches : Nat
  kv : KVState
  deriving Repr, DecidableEq

/-- `BackupFetcher.parseSitemap` (`src/backup/fetcher.ts` lines 295-343):
fetch the sitemap, record its state, return the `urlset` locs (dropping
falsy ones), or recurse into every child of a `sitemapindex` in order,
concatenating the results; any fetch or parse failure is caught and
yields `[]`.  The source recursion carries no visited set and no depth
bound; `fuel` is only the model's structural recursion budget, consumed
one unit per nesting level, and a child that has not completed within the
budget leaves the whole call uncompleted (`res = none`). -/
def parseSitemap (env : BackupEnv) : Nat → KVState → String → ParseOut
  | 0, kv, _ => ⟨none, 0, kv⟩
  | fuel + 1, kv, url =>
    let r := env.web url
    if okResp r then
      let kv1 := recordSitemapState env kv r
      match parseXml r.body with
      | .urlset locs => ⟨some (locs.filter (fun u => !(u = ""))), 1, kv1⟩
      | .index kids =>
        let o := kids.foldl (fun (acc : ParseOut) k =>
          match acc.res with
          | none => acc
          | some us =>
            let c := parseSitemap env fuel acc.kv k
            match c.res with
            | none => ⟨none, acc.fetches + c.fetches, c.kv⟩
            | some vs => ⟨some (us ++ vs), acc.fetches + c.fetches, c.kv⟩)
          ⟨some [], 0, kv1⟩
        ⟨o.res, o.fetches + 1, o.kv⟩
      | .other => ⟨some [], 1, kv1⟩
    else ⟨some [], 1, kv⟩

/-- The comparable hash of a metadata record:
`metadata.normalizedHash || metadata.hash` (JavaScript `||`, so an absent
or empty normalized hash falls back to the raw hash). -/
def comparableHash (m : BackupMeta) : String :=
  match m.normalizedHash with
  | some s => if s = "" then m.hash else s
  | none => m.hash

/-- Look up the `latest:` value for a URL (the most recent write wins). -/
def lookupLatest : List (String × StoredVal) → String → Option StoredVal
  | [], _ => none
  | (k, v) :: rest, u => if k = u then some v else lookupLatest rest u

/-- `BackupFetcher.detectChanges` (`src/backup/fetcher.ts` lines 604-633):
walk the fetch results in order; skip results without metadata; a URL with
no stored `latest:` record is changed; a stored record that fails to parse
marks the URL changed; a parsed record marks it changed exactly when the
comparable hashes differ. -/
def detectChanges (latest : List (String × StoredVal)) : List PageResult → List String
  | [] => []
  | r :: rs =>
    match r.metadata with
    | none => detectChanges latest rs
    | some m =>
      match lookupLatest latest r.url with
      | none => r.url :: detectChanges latest rs
      | some .junk => r.url :: detectChanges latest rs
      | some (.parsed p) =>
        if comparableHash p = comparableHash m then detectChanges latest rs
        else r.url :: detectChanges latest rs

/-- `BackupFetcher.storeBackups` (`src/backup/fetcher.ts` lines 635-662),
restricted to the modelled keys: for each result carrying metadata and
content, move the previous `latest:` value (if any) to `prev_latest:` and
overwrite `latest:` with the new metadata. -/
def storeBackups (kv : KVState) : List PageResult → KVState
  | [] => kv
  | r :: rs =>
    match r.metadata, r.content with
    | some m, some _ =>
      let kv1 :=
        match lookupLatest kv.latest r.url with
        | some old =>
          { kv with latest := (r.url, .parsed m) :: kv.latest,
                    prevLatest := (r.url, old) :: kv.prevLatest }
        | none => { kv with latest := (r.url, .parsed m) :: kv.latest }
      storeBackups kv1 rs
    | _, _ => storeBackups kv rs

/-- `BackupFetcher.hasSitemapChanged` (`src/backup/fetcher.ts` lines
345-390): issue a conditional fetch with the stored validators; 304 means
unchanged; a failed check is treated as changed; otherwise, when no
validators were stored and the stored body hash equals the new body's
hash, refresh `checkedAt` and report unchanged, else record the new state
and report changed.  (JavaScript truthiness of the stored hash is the
`h ≠ ""` guard; under the identity digest model this differs from the
source only for an empty sitemap body.) -/
def hasSitemapChanged (env : BackupEnv) (kv : KVState) (sitemapUrl : String) :
    Bool × KVState :=
  let existing := kv.sitemapState
  let r := env.condWeb (existing.bind (·.etag)) (existing.bind (·.lastModified)) sitemapUrl
  if r.status = 304 then (false, kv)
  else if !okResp r then (true, kv)
  else
    let newHash := calculateHash r.body
    match existing with
    | some ex =>
      if ex.etag.isNone && ex.lastModified.isNone &&
          (match ex.contentHash with
           | some h => !(h == "") && h == newHash
           | none => false) then
        (false, { kv with sitemapState := some { ex with checkedAt := env.now } })
      else (true, recordSitemapState env kv r)
    | none => (true, recordSitemapState env kv r)

/-- `SiteConfig` (`src/types/site.ts`), restricted to the fields the
modelled paths read.  Custom exclusion patterns enter as compiled
predicates (one per regex the source compiles); `none` selects the
built-in default list. -/
structure SiteConfig where
  id : String
  name : String
  baseUrl : String
  sitemapUrl : Option String
  urls : Option (List String)
  excludePatterns : Option (List (String → Bool))
  retentionDays : Nat

/-- The default exclusion regexes `^.*/xx/.*$` with the `i` flag
(`src/backup/fetcher.ts` lines 259-271).  On newline-free URLs each is
equivalent to a case-insensitive substring test for `/xx/`. -/
def defaultExcludeMatchers : List (String → Bool) :=
  [containsSubCI "/fr/", containsSubCI "/en/", containsSubCI "/es/",
   containsSubCI "/de/", containsSubCI "/it/", containsSubCI "/pt/",
   containsSubCI "/zh/", containsSubCI "/ja/", containsSubCI "/ko/",
   containsSubCI "/ar/", containsSubCI "/ru/"]

/-- `BackupFetcher.getUrlsToBackup` (`src/backup/fetcher.ts` lines
247-293): explicit non-empty URL list first, else sitemap resolution,
else the bare base URL; then drop every URL matching an exclusion
pattern. -/
def getUrlsToBackup (cfg : SiteConfig) (env : BackupEnv) (fuel : Nat)
    (kv : KVState) : Option (List String) × KVState :=
  let raw : Option (List String) × KVState :=
    match cfg.urls with
    | some (u :: us) => (some (u :: us), kv)
    | _ =>
      match cfg.sitemapUrl with
      | some su =>
        let o := parseSitemap env fuel kv su
        (o.res, o.kv)
      | none => (some [cfg.baseUrl], kv)
  let matchers := cfg.excludePatterns.getD defaultExcludeMatchers
  (raw.1.map (List.filter (fun u => !matchers.any (· u))), raw.2)

/-- `BatchOptions` (`src/backup/fetcher.ts` lines 5-9). -/
structure BatchOptions where
  batchSize : Option Nat
  batchOffset : Option Nat
  continueFromLast : Bool
  deriving Repr, DecidableEq

/-- `BatchedBackupResult` (`src/backup/fetcher.ts` lines 11-30), with the
wall-clock `executionTime` and the raw per-URL `results` array omitted. -/
structure BatchedBackupResult where
  totalUrls : Nat
  processedInBatch : Nat
  successfulBackups : Nat
  failedBackups : Nat
  changedUrls : List String
  errors : List String
  batchOffset : Nat
  batchSize : Nat
  hasMore : Bool
  nextOffset : Option Nat
  progressCompleted : Nat
  progressTotal : Nat
  percentComplete : Nat
  deriving Repr, DecidableEq

/-- One invocation's observable outcome: the returned result, the final
store, and the list of page URLs fetched (empty on the no-work paths). -/
structure BackupOutcome where
  result : BatchedBackupResult
  kv : KVState
  pageFetches : List String
  deriving Repr, DecidableEq

/-- `Math.round((completed / totalUrls) * 100)` for `totalUrls ≥ 1`
(round half up in integer arithmetic). -/
def percentOf (completed totalUrls : Nat) : Nat :=
  (200 * completed + totalUrls) / (2 * totalUrls)

/-- `buildNoopResult` (`src/backup/fetcher.ts` lines 195-215). -/
def buildNoopResult : BatchedBackupResult :=
  { totalUrls := 0, processedInBatch := 0, successfulBackups := 0,
    failedBackups := 0, changedUrls := [], errors := [], batchOffset := 0,
    batchSize := 0, hasMore := false, nextOffset := none,
    progressCompleted := 0, progressTotal := 0, percentComplete := 100 }

/-- The outcome of the empty-slice branch of `performSiteBackup`
(`src/backup/fetcher.ts` lines 97-124): close out the cycle — clear
progress, write today's full-scan state — and report no work with 100%
progress. -/
def emptyCycleOutcome (env : BackupEnv) (allUrls : List String)
    (batchOffset batchSize : Nat) (kv1 : KVState) : BackupOutcome :=
  ⟨{ totalUrls := allUrls.length, processedInBatch := 0,
     successfulBackups := 0, failedBackups := 0, changedUrls := [],
     errors := [], batchOffset := batchOffset, batchSize := batchSize,
     hasMore := false, nextOffset := none,
     progressCompleted := allUrls.length, progressTotal := allUrls.length,
     percentComplete := 100 },
   { kv1 with batchProgress := none,
              fullScan := some ⟨env.today, env.now, allUrls.length⟩ }, []⟩

/-- The outcome of the non-empty batch branch of `performSiteBackup`
(`src/backup/fetcher.ts` lines 126-193): fetch the slice, detect and
store changes, then persist progress (`hasMore`) or close out the cycle. -/
def fetchBatchOutcome (env : BackupEnv) (allUrls : List String)
    (batchOffset batchSize : Nat) (kv1 : KVState) : BackupOutcome :=
  let totalUrls := allUrls.length
  let batchUrls := (allUrls.drop batchOffset).take batchSize
  let processedInBatch := batchUrls.length
  let results := batchUrls.map env.pageResult
  let successfulResults := results.filter (·.success)
  let failedResults := results.filter (fun r => !r.success)
  let changedUrls := detectChanges kv1.latest successfulResults
  let kv2 := storeBackups kv1 successfulResults
  let errors := failedResults.map (fun r => r.error.getD "Unknown error")
  let nextOffset := batchOffset + processedInBatch
  let hasMore := nextOffset < totalUrls
  let completed := min nextOffset totalUrls
  let kv3 :=
    if hasMore then
      { kv2 with batchProgress := some ⟨nextOffset, totalUrls, env.now⟩ }
    else
      { kv2 with batchProgress := none,
                 fullScan := some ⟨env.today, env.now, totalUrls⟩ }
  ⟨{ totalUrls := totalUrls, processedInBatch := processedInBatch,
     successfulBackups := successfulResults.length,
     failedBackups := failedResults.length,
     changedUrls := changedUrls, errors := errors,
     batchOffset := batchOffset, batchSize := batchSize,
     hasMore := hasMore,
     nextOffset := if hasMore then some nextOffset else none,
     progressCompleted := completed, progressTotal := totalUrls,
     percentComplete := percentOf completed totalUrls }, kv3, batchUrls⟩

/-- The body of `performSiteBackup` from URL resolution onward
(`src/backup/fetcher.ts` lines 87-193): resolve, slice
`[batchOffset, batchOffset + batchSize)`, and either close out the cycle
(empty slice) or fetch the batch.  Retention cleanup on the first batch
touches only unmodelled dated keys.  `none` means the sitemap recursion
exceeded the model's budget. -/
def performBatchCore (cfg : SiteConfig) (env : BackupEnv) (fuel : Nat)
    (batchOffset batchSize : Nat) (kv : KVState) : Option BackupOutcome :=
  match getUrlsToBackup cfg env fuel kv with
  | (none, _) => none
  | (some allUrls, kv1) =>
    if ((allUrls.drop batchOffset).take batchSize).isEmpty then
      some (emptyCycleOutcome env allUrls batchOffset batchSize kv1)
    else
      some (fetchBatchOutcome env allUrls batchOffset batchSize kv1)

/-- `Math.min(batchOptions?.batchSize ?? DEFAULT_BATCH_SIZE, MAX_BATCH_SIZE)`
(`src/backup/fetcher.ts` lines 54-57, with `DEFAULT_BATCH_SIZE = 25` and
`MAX_BATCH_SIZE = 30`). -/
def effectiveBatchSize (opts : BatchOptions) : Nat :=
  min (opts.batchSize.getD 25) 30

/-- The saved progress loaded by the invocation: only consulted when
`continueFromLast` is set (`src/backup/fetcher.ts` lines 60-67). -/
def loadedProgress (opts : BatchOptions) (kv : KVState) : Option BatchProgressRec :=
  if opts.continueFromLast then kv.batchProgress else none

/-- The batch offset the invocation runs at: the saved progress offset
when one was loaded, else the explicit option, else 0. -/
def effectiveOffset (opts : BatchOptions) (kv : KVState) : Nat :=
  match loadedProgress opts kv with
  | some p => p.nextOffset
  | none => opts.batchOffset.getD 0

/-- The guard of the once-per-day short-circuit (`src/backup/fetcher.ts`
line 71-73): continuing with no saved progress from offset 0 while a full
scan for today is recorded. -/
def noopGate (opts : BatchOptions) (env : BackupEnv) (kv : KVState) : Bool :=
  opts.continueFromLast && !(loadedProgress opts kv).isSome &&
    (effectiveOffset opts kv == 0) &&
    (match kv.fullScan with
     | some fs => fs.date == env.today
     | none => false)

/-- `BackupFetcher.performSiteBackup` (`src/backup/fetcher.ts` lines
45-193): clamp the batch size, load saved progress when continuing, and —
only when continuing with no saved progress from offset 0 while today's
full scan is already recorded — short-circuit: sitemap-driven sites
re-check the sitemap and no-op when it is unchanged, explicit-URL sites
always no-op; otherwise run the batch body. -/
def performSiteBackup (cfg : SiteConfig) (opts : BatchOptions)
    (env : BackupEnv) (fuel : Nat) (kv0 : KVState) : Option BackupOutcome :=
  if noopGate opts env kv0 then
    match cfg.sitemapUrl with
    | some su =>
      match hasSitemapChanged env kv0 su with
      | (true, kv1) =>
        performBatchCore cfg env fuel (effectiveOffset opts kv0)
          (effectiveBatchSize opts) kv1
      | (false, kv1) => some ⟨buildNoopResult, kv1, []⟩
    | none => some ⟨buildNoopResult, kv0, []⟩
  else
    performBatchCore cfg env fuel (effectiveOffset opts kv0)
      (effectiveBatchSize opts) kv0

/-! ## Cyclic sitemap resolution (C1) -/

/-- A sitemap index whose only child is `B`. -/
def sitemapBodyA : String :=
  "<sitemapindex><sitemap><loc>B</loc></sitemap></sitemapindex>"

/-- A sitemap index whose only child is `A`. -/
def sitemapBodyB : String :=
  "<sitemapindex><sitemap><loc>A</loc></sitemap></sitemapindex>"

/-- The network of the cyclic scenario: sitemap `A` lists `B` and sitemap
`B` lists `A`, both served successfully. -/
def cyclicEnv : BackupEnv :=
  { today := "2026-02-22", now := "t",
    web := fun u =>
      if u = "A" then ⟨200, none, none, sitemapBodyA⟩
      else ⟨200, none, none, sitemapBodyB⟩,
    condWeb := fun _ _ _ => ⟨200, none, none, ""⟩,
    pageResult := fun u => ⟨u, true, some ⟨"h", some "nh"⟩, some "c", none⟩ }

theorem cyclicEnv_web_A : cyclicEnv.web "A" = ⟨200, none, none, sitemapBodyA⟩ := rfl

theorem cyclicEnv_web_B : cyclicEnv.web "B" = ⟨200, none, none, sitemapBodyB⟩ := rfl

theorem parseXml_bodyA : parseXml sitemapBodyA = .index ["B"] := by decide

theorem parseXml_bodyB : parseXml sitemapBodyB = .index ["A"] := by decide

theorem c1_cycle_aux : ∀ (fuel : Nat) (kv : KVState),
    ((parseSitemap cyclicEnv fuel kv "A").res = none ∧
      (parseSitemap cyclicEnv fuel kv "A").fetches = fuel) ∧
    ((parseSitemap cyclicEnv fuel kv "B").res = none ∧
      (parseSitemap cyclicEnv fuel kv "B").fetches = fuel) := by
  intro fuel
  induction fuel with
  | zero => intro kv; simp [parseSitemap]
  | succ n ih =>
    intro kv
    constructor
    · have hB := (ih (recordSitemapState cyclicEnv kv (cyclicEnv.web "A"))).2
      simp only [parseSitemap, cyclicEnv_web_A]
      rw [show parseXml (⟨200, none, none, sitemapBodyA⟩ : FetchResp).body = .index ["B"]
        from parseXml_bodyA]
      simp only [List.foldl]
      rw [cyclicEnv_web_A] at hB
      rcases hB with ⟨hres, hfet⟩
      simp [okResp, hres, hfet]
    · have hA := (ih (recordSitemapState cyclicEnv kv (cyclicEnv.web "B"))).1
      simp only [parseSitemap, cyclicEnv_web_B]
      rw [show parseXml (⟨200, none, none, sitemapBodyB⟩ : FetchResp).body = .index ["A"]
        from parseXml_bodyB]
      simp only [List.foldl]
      rw [cyclicEnv_web_B] at hA
      rcases hA with ⟨hres, hfet⟩
      simp [okResp, hres, hfet]

/-- C1: on the cyclic sitemap graph A→B→A, the source recursion of
`BackupFetcher.parseSitemap` never completes and its sitemap fetch count
is unbounded: for every recursion budget `fuel` (and any store state) the
resolution is still unfinished (`res = none`) after performing exactly
`fuel` sitemap fetches — one per recursion level, with no visited set to
stop it.  This refutes the claimed visited-set bound of
`visited + 1` fetches per resolution call. -/
theorem parseSitemap_cycle_unbounded (fuel : Nat) (kv : KVState) :
    (parseSitemap cyclicEnv fuel kv "A").res = none ∧
      (parseSitemap cyclicEnv fuel kv "A").fetches = fuel :=
  (c1_cycle_aux fuel kv).1

/-! ## Sitemap-change short-circuit across `<lastmod>` churn (C4) -/

/-- Flat sitemap, two locs, `<lastmod>` stamp `t1`. -/
def lastmodBody1 : String :=
  "<urlset><url><loc>u1</loc><lastmod>t1</lastmod></url><url><loc>u2</loc><lastmod>t1</lastmod></url></urlset>"

/-- The same two locs with only the `<lastmod>` stamps changed to `t2`. -/
def lastmodBody2 : String :=
  "<urlset><url><loc>u1</loc><lastmod>t2</lastmod></url><url><loc>u2</loc><lastmod>t2</lastmod></url></urlset>"

/-- A sitemap-driven site configuration (no explicit URL list, default
exclusions). -/
def sitemapSiteCfg : SiteConfig :=
  { id := "site", name := "Site", baseUrl := "https://site.example",
    sitemapUrl := some "https://site.example/sitemap.xml", urls := none,
    excludePatterns := none, retentionDays := 7 }

/-- The scheduler's continuation options (defaults otherwise). -/
def continueOpts : BatchOptions :=
  { batchSize := none, batchOffset := none, continueFromLast := true }

/-- First run's network: the server returns `lastmodBody1` with no
validator headers (it does not support conditional requests), and every
page fetch succeeds. -/
def lastmodEnv1 : BackupEnv :=
  { today := "2026-02-22", now := "t1",
    web := fun _ => ⟨200, none, none, lastmodBody1⟩,
    condWeb := fun _ _ _ => ⟨200, none, none, lastmodBody1⟩,
    pageResult := fun u => ⟨u, true, some ⟨"h", some "nh"⟩, some "c", none⟩ }

/-- Second run's network, same day: only the `<lastmod>` values changed. -/
def lastmodEnv2 : BackupEnv :=
  { lastmodEnv1 with
    now := "t2",
    web := fun _ => ⟨200, none, none, lastmodBody2⟩,
    condWeb := fun _ _ _ => ⟨200, none, none, lastmodBody2⟩ }

/-- C4: with the full scan for today already complete and only `<lastmod>`
values changed in the sitemap, the second invocation does NOT
short-circuit: `hasSitemapChanged` hashes the entire sitemap body, the
`<lastmod>` churn changes that hash, so the stored-hash fallback fails and
the run re-parses the sitemap and fetches both pages, returning
`totalUrls = 2` — where the claim (and the repository's own test suite)
requires zero page fetches and `totalUrls = 0`. -/
theorem lastmod_churn_rescans :
    ((performSiteBackup sitemapSiteCfg continueOpts lastmodEnv1 2 KVState.empty).bind
        (fun o1 => (performSiteBackup sitemapSiteCfg continueOpts lastmodEnv2 2 o1.kv).map
          (fun o2 => (o2.result.totalUrls, o2.pageFetches))))
      = some (2, ["u1", "u2"]) := by decide

/-! ## Zero-URL resolution and saved progress (C6) -/

/-- A network where the sitemap fetch fails (HTTP 500), so resolution is
caught and yields zero URLs. -/
def failEnv : BackupEnv :=
  { lastmodEnv1 with web := fun _ => ⟨500, none, none, ""⟩ }

/-- A store with a batch in progress: the next continuation should resume
at offset 25 of 100. -/
def inProgressKV : KVState :=
  { KVState.empty with batchProgress := some ⟨25, 100, "r"⟩ }

/-- C6: when sitemap resolution fails and yields zero URLs while a batch
is in progress, the invocation does NOT leave the progress record
untouched: the empty batch slice takes the cycle-complete path, which
clears `batch_progress` and writes a `full_scan` record for today with
`totalUrls = 0` — where the claim (and the spec's failure semantics)
requires the existing progress to be preserved for the next attempt. -/
theorem zero_url_resolution_clears_progress :
    ((performSiteBackup sitemapSiteCfg continueOpts failEnv 1 inProgressKV).map
        (fun o => (o.kv.batchProgress, o.kv.fullScan.map (·.totalUrls), o.result.totalUrls)))
      = some (none, some 0, 0) := by decide

/-! ## The offset/processed invariant (C7) -/

/-- An explicit-URL-list site with three URLs. -/
def urlListCfg : SiteConfig :=
  { sitemapSiteCfg with
    sitemapUrl := none,
    urls := some ["https://site.example/a", "https://site.example/b",
      "https://site.example/c"] }

/-- C7 counterexample: starting at offset 5 of a 3-URL site (as a stale
progress offset would after the URL set shrank), the returned result has
`batchOffset + processedInBatch = 5 + 0 > 3 = totalUrls`, refuting the
claimed invariant for offsets beyond the resolved URL count. -/
theorem offset_invariant_fails_beyond_total :
    ((performSiteBackup urlListCfg
          { batchSize := none, batchOffset := some 5, continueFromLast := false }
          lastmodEnv1 1 KVState.empty).map
        (fun o => decide (o.result.batchOffset + o.result.processedInBatch ≤ o.result.totalUrls)))
      = some false := by decide

theorem mem_detectChanges_urls (latest : List (String × StoredVal))
    (rs : List PageResult) (x : String) (hx : x ∈ detectChanges latest rs) :
    x ∈ rs.map (·.url) := by
  induction rs with
  | nil => simp [detectChanges] at hx
  | cons a rs ih =>
    simp only [List.map_cons, List.mem_cons]
    cases hma : a.metadata with
    | none =>
      simp only [detectChanges, hma] at hx
      exact Or.inr (ih hx)
    | some m =>
      cases hl : lookupLatest latest a.url with
      | none =>
        simp only [detectChanges, hma, hl, List.mem_cons] at hx
        rcases hx with h | h
        · exact Or.inl h
        · exact Or.inr (ih h)
      | some v =>
        cases v with
        | junk =>
          simp only [detectChanges, hma, hl, List.mem_cons] at hx
          rcases hx with h | h
          · exact Or.inl h
          · exact Or.inr (ih h)
        | parsed p =>
          simp only [detectChanges, hma, hl] at hx
          by_cases hc : comparableHash p = comparableHash m
          · rw [if_pos hc] at hx; exact Or.inr (ih hx)
          · rw [if_neg hc] at hx
            rcases List.mem_cons.mp hx with h | h
            · exact Or.inl h
            · exact Or.inr (ih h)

theorem detectChanges_cons_of_mem (latest : List (String × StoredVal))
    (a : PageResult) (rs : List PageResult) (x : String)
    (hx : x ∈ detectChanges latest rs) : x ∈ detectChanges latest (a :: rs) := by
  cases hma : a.metadata with
  | none => simp only [detectChanges, hma]; exact hx
  | some m =>
    cases hl : lookupLatest latest a.url with
    | none =>
      simp only [detectChanges, hma, hl]
      exact List.mem_cons_of_mem _ hx
    | some v =>
      cases v with
      | junk =>
        simp only [detectChanges, hma, hl]
        exact List.mem_cons_of_mem _ hx
      | parsed p =>
        simp only [detectChanges, hma, hl]
        by_cases hc : comparableHash p = comparableHash m
        · rw [if_pos hc]; exact hx
        · rw [if_neg hc]; exact List.mem_cons_of_mem _ hx

theorem detectChanges_cons_ne (latest : List (String × StoredVal))
    (a : PageResult) (rs : List PageResult) (x : String) (hx : ¬x = a.url) :
    (x ∈ detectChanges latest (a :: rs) ↔ x ∈ detectChanges latest rs) := by
  cases hma : a.metadata with
  | none => simp only [detectChanges, hma]
  | some m =>
    cases hl : lookupLatest latest a.url with
    | none => simp only [detectChanges, hma, hl]; simp [List.mem_cons, hx]
    | some v =>
      cases v with
      | junk => simp only [detectChanges, hma, hl]; simp [List.mem_cons, hx]
      | parsed p =>
        simp only [detectChanges, hma, hl]
        by_cases hc : comparableHash p = comparableHash m
        · rw [if_pos hc]
        · rw [if_neg hc]; simp [List.mem_cons, hx]

theorem detectChanges_reports (latest : List (String × StoredVal))
    (results : List PageResult) (r : PageResult) (m : BackupMeta)
    (hnd : (results.map (·.url)).Nodup) (hr : r ∈ results)
    (hm : r.metadata = some m) :
    (lookupLatest latest r.url = none → r.url ∈ detectChanges latest results) ∧
    (∀ p, lookupLatest latest r.url = some (.parsed p) →
      (r.url ∈ detectChanges latest results ↔ ¬comparableHash p = comparableHash m)) := by
  induction results with
  | nil => simp at hr
  | cons a rs ih =>
    rcases List.mem_cons.mp hr with hra | hrr
    · subst hra
      constructor
      · intro hl
        simp only [detectChanges, hm, hl]
        exact List.mem_cons_self _ _
      · intro p hl
        simp only [detectChanges, hm, hl]
        by_cases hc : comparableHash p = comparableHash m
        · rw [if_pos hc]
          constructor
          · intro hmem
            have := mem_detectChanges_urls latest rs _ hmem
            simp only [List.map_cons, List.nodup_cons] at hnd
            exact absurd this hnd.1
          · intro hne; exact absurd hc hne
        · rw [if_neg hc]
          constructor
          · intro _; exact hc
          · intro _; exact List.mem_cons_self _ _
    · simp only [List.map_cons, List.nodup_cons] at hnd
      have hne : ¬r.url = a.url := by
        intro h
        exact hnd.1 (h ▸ List.mem_map_of_mem (·.url) hrr)
      have ihs := ih hnd.2 hrr
      constructor
      · intro hl
        exact detectChanges_cons_of_mem latest a rs _ (ihs.1 hl)
      · intro p hl
        rw [detectChanges_cons_ne latest a rs _ hne]
        exact ihs.2 p hl

theorem detectChanges_junk_reports (latest : List (String × StoredVal))
    (results : List PageResult) (r : PageResult) (m : BackupMeta)
    (hr : r ∈ results) (hm : r.metadata = some m)
    (hj : lookupLatest latest r.url = some .junk) :
    r.url ∈ detectChanges latest results := by
  induction results with
  | nil => simp at hr
  | cons a rs ih =>
    rcases List.mem_cons.mp hr with hra | hrr
    · subst hra
      simp only [detectChanges, hm, hj]
      exact List.mem_cons_self _ _
    · exact detectChanges_cons_of_mem latest a rs _ (ih hrr)

/-- C3: for every successfully fetched result carrying metadata, in a
batch of distinct URLs, `detectChanges` reports the URL changed when no
`latest:` record is stored, and when a parseable record is stored it
reports it changed exactly when the comparable hashes (normalized hash
with fallback to the raw hash) differ — in particular a URL whose
comparable hash equals the stored one is never reported changed even if
the raw hashes differ.  This is `detectChanges_reports` above; the
claim's statement is its two conjuncts. -/
theorem detectChanges_characterizes_changed (latest : List (String × StoredVal))
    (results : List PageResult) (r : PageResult) (m : BackupMeta)
    (hnd : (results.map (·.url)).Nodup) (hr : r ∈ results)
    (hm : r.metadata = some m) :
    (lookupLatest latest r.url = none → r.url ∈ detectChanges latest results) ∧
    (∀ p, lookupLatest latest r.url = some (.parsed p) →
      (r.url ∈ detectChanges latest results ↔ ¬comparableHash p = comparableHash m)) :=
  detectChanges_reports latest results r m hnd hr hm

/-- Witness for `detectChanges_characterizes_changed`: a stored record
with the same normalized hash but a different raw hash — the reported
iff specializes to `u1 ∈ changed ↔ ¬"norm" = "norm"`, i.e. not changed. -/
theorem detectChanges_characterizes_changed_witness :
    ("u1" ∈ detectChanges [("u1", .parsed ⟨"rawOld", some "norm"⟩)]
        [⟨"u1", true, some ⟨"rawNew", some "norm"⟩, some "c", none⟩,
         ⟨"u2", true, some ⟨"h2", some "n2"⟩, some "c", none⟩]
      ↔ ¬comparableHash ⟨"rawOld", some "norm"⟩ = comparableHash ⟨"rawNew", some "norm"⟩) :=
  (detectChanges_characterizes_changed
      [("u1", .parsed ⟨"rawOld", some "norm"⟩)]
      [⟨"u1", true, some ⟨"rawNew", some "norm"⟩, some "c", none⟩,
       ⟨"u2", true, some ⟨"h2", some "n2"⟩, some "c", none⟩]
      ⟨"u1", true, some ⟨"rawNew", some "norm"⟩, some "c", none⟩
      ⟨"rawNew", some "norm"⟩ (by decide) (by decide) rfl).2
    ⟨"rawOld", some "norm"⟩ rfl

/-- C10: when the stored `latest:` value for a successfully fetched URL
exists but does not parse as JSON, `detectChanges` neither fails nor
skips that URL: it conservatively reports the URL changed (and, being a
total function over the whole result list, the rest of the batch is
still processed). -/
theorem detectChanges_junk_conservative (latest : List (String × StoredVal))
    (results : List PageResult) (r : PageResult) (m : BackupMeta)
    (hr : r ∈ results) (hm : r.metadata = some m)
    (hj : lookupLatest latest r.url = some .junk) :
    r.url ∈ detectChanges latest results :=
  detectChanges_junk_reports latest results r m hr hm hj

/-- Witness for `detectChanges_junk_conservative`: an unparseable stored
value for `u1` makes `u1` reported changed. -/
theorem detectChanges_junk_conservative_witness :
    "u1" ∈ detectChanges [("u1", .junk)]
      [⟨"u1", true, some ⟨"h", some "n"⟩, some "c", none⟩] :=
  detectChanges_junk_conservative [("u1", .junk)]
    [⟨"u1", true, some ⟨"h", some "n"⟩, some "c", none⟩]
    ⟨"u1", true, some ⟨"h", some "n"⟩, some "c", none⟩
    ⟨"h", some "n"⟩ (by decide) rfl rfl

theorem performBatchCore_bound (cfg : SiteConfig) (env : BackupEnv) (fuel off bs : Nat)
    (kv : KVState) (out : BackupOutcome)
    (h : performBatchCore cfg env fuel off bs kv = some out) :
    out.result.batchOffset = off ∧
      (off ≤ out.result.totalUrls →
        off + out.result.processedInBatch ≤ out.result.totalUrls) := by
  rcases hg : getUrlsToBackup cfg env fuel kv with ⟨urls, kv1⟩
  cases urls with
  | none =>
    simp only [performBatchCore, hg] at h
    exact Option.noConfusion h
  | some allUrls =>
    simp only [performBatchCore, hg] at h
    by_cases he : ((allUrls.drop off).take bs).isEmpty
    · rw [if_pos he] at h
      cases h
      refine ⟨rfl, fun hoff => ?_⟩
      simpa [emptyCycleOutcome] using hoff
    · rw [if_neg he] at h
      cases h
      refine ⟨rfl, fun hoff => ?_⟩
      have hlen : ((allUrls.drop off).take bs).length ≤ allUrls.length - off := by
        simp [List.length_take, List.length_drop]
      simp only [fetchBatchOutcome] at hoff ⊢
      omega

/-- C7 (amended): for every invocation whose effective starting offset
does not exceed the resolved URL count — as reflected in the returned
result — the invariant `batchOffset + processedInBatch ≤ totalUrls`
holds.  (Unconditionally it can fail: see the counterexample with a
stale offset beyond the URL count, where `processedInBatch = 0` but the
echoed `batchOffset` alone exceeds `totalUrls`.) -/
theorem performSiteBackup_offset_bound (cfg : SiteConfig) (opts : BatchOptions)
    (env : BackupEnv) (fuel : Nat) (kv : KVState) (out : BackupOutcome)
    (hout : performSiteBackup cfg opts env fuel kv = some out)
    (hoff : out.result.batchOffset ≤ out.result.totalUrls) :
    out.result.batchOffset + out.result.processedInBatch ≤ out.result.totalUrls := by
  rw [performSiteBackup] at hout
  by_cases hg : noopGate opts env kv
  · rw [if_pos hg] at hout
    rcases hsu : cfg.sitemapUrl with _ | su
    · simp only [hsu] at hout
      cases hout
      simp [buildNoopResult]
    · simp only [hsu] at hout
      rcases hsc : hasSitemapChanged env kv su with ⟨changed, kv1⟩
      cases changed
      · simp only [hsc] at hout
        cases hout
        simp [buildNoopResult]
      · simp only [hsc] at hout
        have := performBatchCore_bound cfg env fuel _ _ kv1 out hout
        rw [this.1] at hoff ⊢
        exact this.2 hoff
  · rw [if_neg hg] at hout
    have := performBatchCore_bound cfg env fuel _ _ kv out hout
    rw [this.1] at hoff ⊢
    exact this.2 hoff

/-- The outcome of the 3-URL site at starting offset 1 (used to witness
`performSiteBackup_offset_bound`). -/
def offsetBoundWitnessOutcome : BackupOutcome :=
  (performSiteBackup urlListCfg
      { batchSize := none, batchOffset := some 1, continueFromLast := false }
      lastmodEnv1 1 KVState.empty).getD ⟨buildNoopResult, KVState.empty, []⟩

/-- Witness for `performSiteBackup_offset_bound` at offset 1 of 3. -/
theorem performSiteBackup_offset_bound_witness :
    offsetBoundWitnessOutcome.result.batchOffset +
        offsetBoundWitnessOutcome.result.processedInBatch ≤
      offsetBoundWitnessOutcome.result.totalUrls :=
  performSiteBackup_offset_bound urlListCfg
    { batchSize := none, batchOffset := some 1, continueFromLast := false }
    lastmodEnv1 1 KVState.empty offsetBoundWitnessOutcome (by decide) (by decide)

/-! ## Large-site listener mode (C5) -/

/-- Modelled from the spec: the listener-mode state a site carries — the
`sitemap_listener:{site}` flag and the `sitemap_snapshot:{site}` URL set.
The implementation is absent from `src/` (only its tests reference these
keys), so the state is taken from §4.1 and the data model. -/
structure ListenerState where
  enabled : Bool
  snapshot : List String
  deriving Repr, DecidableEq

/-- Modelled from the spec: the large-site threshold (100). -/
def LISTENER_THRESHOLD : Nat := 100

/-- Modelled from the spec: one run's listener-mode decision, absent from
`src/` (only its tests exist).  Per §4.1: when a resolved flat URL set
exceeds the threshold, do not backfill — store a snapshot of the current
URL set and return an empty processing set; on later runs, only URLs
present in the live sitemap but absent from the stored snapshot are new
work, and the snapshot is then updated.  Below the threshold the URL set
is processed normally. -/
def listenerStep (st : ListenerState) (live : List String) :
    List String × ListenerState :=
  if st.enabled then
    (live.filter (fun u => !st.snapshot.contains u), { enabled := true, snapshot := live })
  else if LISTENER_THRESHOLD < live.length then
    ([], { enabled := true, snapshot := live })
  else (live, st)

/-- C5 (spec-modelled): when the resolved URL set exceeds the threshold
of 100, the first run returns an empty processing set (zero page fetches)
and stores the current URL set as the snapshot; a later run whose live
sitemap adds exactly one URL absent from that snapshot processes exactly
that one URL. -/
theorem listener_mode_snapshot_then_delta (st₀ : ListenerState)
    (live₁ : List String) (u : String) (h₀ : st₀.enabled = false)
    (hbig : LISTENER_THRESHOLD < live₁.length) (hu : u ∉ live₁) :
    (listenerStep st₀ live₁).1 = [] ∧
      (listenerStep st₀ live₁).2.snapshot = live₁ ∧
      (listenerStep (listenerStep st₀ live₁).2 (live₁ ++ [u])).1 = [u] := by
  have h1 : listenerStep st₀ live₁ = ([], ⟨true, live₁⟩) := by
    simp [listenerStep, h₀, hbig]
  refine ⟨by rw [h1], by rw [h1], ?_⟩
  rw [h1]
  simp only [listenerStep, if_pos]
  rw [List.filter_append]
  have hnil : live₁.filter (fun v => !live₁.contains v) = [] := by
    apply List.filter_eq_nil_iff.mpr
    intro a ha
    simp [ha]
  have hone : [u].filter (fun v => !live₁.contains v) = [u] := by
    simp [hu]
  rw [hnil, hone]
  rfl

/-- Witness for `listener_mode_snapshot_then_delta` with a 101-URL
sitemap growing by one URL. -/
theorem listener_mode_snapshot_then_delta_witness :
    (listenerStep ⟨false, []⟩ (List.replicate 101 "p")).1 = [] ∧
      (listenerStep ⟨false, []⟩ (List.replicate 101 "p")).2.snapshot = List.replicate 101 "p" ∧
      (listenerStep (listenerStep ⟨false, []⟩ (List.replicate 101 "p")).2
          (List.replicate 101 "p" ++ ["q"])).1 = ["q"] :=
  listener_mode_snapshot_then_delta ⟨false, []⟩ (List.replicate 101 "p") "q"
    rfl (by simp [LISTENER_THRESHOLD]) (by simp)

/-- One continuation sequence: invoke `performSiteBackup` repeatedly
(with the same options and environment) until an invocation reports
`hasMore = false`, collecting the returned results; `none` when the
iteration budget is exhausted first (or an invocation itself diverges). -/
def runSeq (cfg : SiteConfig) (opts : BatchOptions) (env : BackupEnv) (fuel : Nat) :
    Nat → KVState → Option (List BatchedBackupResult)
  | 0, _ => none
  | n + 1, kv =>
    match performSiteBackup cfg opts env fuel kv with
    | none => none
    | some out =>
      if out.result.hasMore then
        (runSeq cfg opts env fuel n out.kv).map (out.result :: ·)
      else some [out.result]

theorem runSeq_succ (cfg : SiteConfig) (opts : BatchOptions) (env : BackupEnv)
    (fuel n : Nat) (kv : KVState) :
    runSeq cfg opts env fuel (n + 1) kv =
      match performSiteBackup cfg opts env fuel kv with
      | none => none
      | some out =>
        if out.result.hasMore then
          (runSeq cfg opts env fuel n out.kv).map (out.result :: ·)
        else some [out.result] := rfl

/-- One batch-body invocation at offset `off` over a stable resolved URL
set: it returns an outcome processing `P = min batchSize (total - off)`
URLs, reports more work exactly when `off + P < total`, and in that case
persists progress at `off + P`. -/
theorem core_step (cfg : SiteConfig) (env : BackupEnv) (fuel off bs : Nat)
    (kv : KVState) (allUrls : List String)
    (hst : (getUrlsToBackup cfg env fuel kv).1 = some allUrls) (hbs : 0 < bs) :
    ∃ out P, performBatchCore cfg env fuel off bs kv = some out ∧
      P = min bs (allUrls.length - off) ∧
      out.result.processedInBatch = P ∧
      out.result.hasMore = decide (off + P < allUrls.length) ∧
      (out.result.hasMore = true →
        out.kv.batchProgress = some ⟨off + P, allUrls.length, env.now⟩) := by
  rcases hg : getUrlsToBackup cfg env fuel kv with ⟨urls, kv1⟩
  rw [hg] at hst
  simp only at hst
  subst hst
  have hslice : ((allUrls.drop off).take bs).length = min bs (allUrls.length - off) := by
    simp [List.length_take, List.length_drop]
  by_cases he : ((allUrls.drop off).take bs).isEmpty
  · have hnil : (allUrls.drop off).take bs = [] := by
      simpa [List.isEmpty_iff] using he
    have hmin : min bs (allUrls.length - off) = 0 := by
      rw [← hslice, hnil]; rfl
    have hto : allUrls.length - off = 0 := by
      rcases Nat.min_eq_zero_iff.mp hmin with h | h
      · omega
      · exact h
    refine ⟨emptyCycleOutcome env allUrls off bs kv1, 0, ?_, hmin.symm, ?_, ?_, ?_⟩
    · simp only [performBatchCore, hg]
      rw [if_pos he]
    · simp [emptyCycleOutcome]
    · simp [emptyCycleOutcome]
      omega
    · intro hhm
      simp [emptyCycleOutcome] at hhm
  · refine ⟨fetchBatchOutcome env allUrls off bs kv1,
      ((allUrls.drop off).take bs).length, ?_, hslice.symm ▸ hslice, ?_, ?_, ?_⟩
    · simp only [performBatchCore, hg]
      rw [if_neg he]
    · simp only [fetchBatchOutcome]
    · simp only [fetchBatchOutcome]
    · intro hhm
      simp only [fetchBatchOutcome] at hhm ⊢
      have hlt : off + ((allUrls.drop off).take bs).length < allUrls.length :=
        of_decide_eq_true hhm
      rw [if_pos hlt]

/-- Iterating continuations from any invocation whose effective offset is
`off` (no-op gate closed) processes exactly the remaining
`total - off` URLs before reporting `hasMore = false`. -/
theorem seq_from (cfg : SiteConfig) (opts : BatchOptions) (env : BackupEnv)
    (fuel : Nat) (allUrls : List String)
    (hstable : ∀ kv, (getUrlsToBackup cfg env fuel kv).1 = some allUrls)
    (hcont : opts.continueFromLast = true) (hbs : 0 < effectiveBatchSize opts) :
    ∀ d kv off, noopGate opts env kv = false → effectiveOffset opts kv = off →
      allUrls.length - off ≤ d →
      ∃ rs, runSeq cfg opts env fuel (d + 1) kv = some rs ∧
        (rs.map (·.processedInBatch)).sum = allUrls.length - off := by
  intro d
  induction d with
  | zero =>
    intro kv off hgate hoffe hle
    obtain ⟨out, P, heq, hPmin, hproc, hhm, _⟩ :=
      core_step cfg env fuel off (effectiveBatchSize opts) kv allUrls (hstable kv) hbs
    have hPle : P ≤ allUrls.length - off := by rw [hPmin]; exact min_le_right _ _
    have hperf : performSiteBackup cfg opts env fuel kv = some out := by
      rw [performSiteBackup, if_neg (by simp [hgate]), hoffe]
      exact heq
    have hhm' : out.result.hasMore = false := by
      rw [hhm]
      simp only [decide_eq_false_iff_not]
      omega
    refine ⟨[out.result], ?_, ?_⟩
    · rw [runSeq_succ]
      simp [hperf, hhm']
    · simp only [List.map_cons, List.map_nil, List.sum_cons, List.sum_nil, hproc]
      omega
  | succ n ih =>
    intro kv off hgate hoffe hle
    obtain ⟨out, P, heq, hPmin, hproc, hhm, hprog⟩ :=
      core_step cfg env fuel off (effectiveBatchSize opts) kv allUrls (hstable kv) hbs
    have hPle : P ≤ allUrls.length - off := by rw [hPmin]; exact min_le_right _ _
    have hperf : performSiteBackup cfg opts env fuel kv = some out := by
      rw [performSiteBackup, if_neg (by simp [hgate]), hoffe]
      exact heq
    by_cases hm : off + P < allUrls.length
    · have hP1 : 1 ≤ P := by
        rw [hPmin]
        exact le_min hbs (by omega)
      have hhm' : out.result.hasMore = true := by
        rw [hhm]; exact decide_eq_true hm
      have hkv : out.kv.batchProgress = some ⟨off + P, allUrls.length, env.now⟩ :=
        hprog hhm'
      have hgate' : noopGate opts env out.kv = false := by
        simp [noopGate, loadedProgress, hcont, hkv]
      have hoffe' : effectiveOffset opts out.kv = off + P := by
        simp [effectiveOffset, loadedProgress, hcont, hkv]
      obtain ⟨rs', hrs', hsum'⟩ := ih out.kv (off + P) hgate' hoffe' (by omega)
      refine ⟨out.result :: rs', ?_, ?_⟩
      · rw [runSeq_succ]
        simp [hperf, hhm', hrs']
      · simp only [List.map_cons, List.sum_cons, hsum', hproc]
        omega
    · have hhm' : out.result.hasMore = false := by
        rw [hhm]
        simp only [decide_eq_false_iff_not]
        exact hm
      refine ⟨[out.result], ?_, ?_⟩
      · rw [runSeq_succ]
        simp [hperf, hhm']
      · simp only [List.map_cons, List.map_nil, List.sum_cons, List.sum_nil, hproc]
        omega

/-- C2: over a stable URL set, starting from no saved progress at offset
0 (and no full-scan record for today), repeating `performSiteBackup`
continuation invocations until the returned `hasMore` is false terminates
and the sum of `processedInBatch` over the sequence equals `totalUrls` —
no URL is skipped or processed twice across batches.  The batch size may
be any positive effective value. -/
theorem performSiteBackup_continuation_sum (cfg : SiteConfig) (opts : BatchOptions)
    (env : BackupEnv) (fuel : Nat) (kv0 : KVState) (allUrls : List String)
    (hcont : opts.continueFromLast = true) (hbo : opts.batchOffset = none)
    (hbs : 0 < effectiveBatchSize opts)
    (hstable : ∀ kv, (getUrlsToBackup cfg env fuel kv).1 = some allUrls)
    (hprog : kv0.batchProgress = none)
    (hfs : ∀ fs, kv0.fullScan = some fs → fs.date ≠ env.today) :
    ∃ rs, runSeq cfg opts env fuel (allUrls.length + 1) kv0 = some rs ∧
      (rs.map (·.processedInBatch)).sum = allUrls.length := by
  have hoffe : effectiveOffset opts kv0 = 0 := by
    simp [effectiveOffset, loadedProgress, hcont, hprog, hbo]
  have hgate : noopGate opts env kv0 = false := by
    simp only [noopGate, loadedProgress, hcont, hprog]
    cases hf : kv0.fullScan with
    | none => simp [hf]
    | some fs =>
      have : (fs.date == env.today) = false := beq_eq_false_iff_ne.mpr (hfs fs hf)
      simp [hf, this]
  simpa using
    seq_from cfg opts env fuel allUrls hstable hcont hbs allUrls.length kv0 0
      hgate hoffe (by omega)

/-- Witness for `performSiteBackup_continuation_sum`: a 3-URL site
crawled in batches of 2 completes in two invocations with
`2 + 1 = 3` processed. -/
theorem performSiteBackup_continuation_sum_witness :
    ∃ rs, runSeq urlListCfg { batchSize := some 2, batchOffset := none, continueFromLast := true }
        lastmodEnv1 1 4 KVState.empty = some rs ∧
      (rs.map (·.processedInBatch)).sum = 3 := by
  have h := performSiteBackup_continuation_sum urlListCfg
    { batchSize := some 2, batchOffset := none, continueFromLast := true }
    lastmodEnv1 1 KVState.empty
    ["https://site.example/a", "https://site.example/b", "https://site.example/c"]
    rfl rfl (by decide) (fun kv => rfl) rfl (fun fs h => by cases h)
  simpa using h
